import Mathlib

/-!
Verification development for the trade-journal analytics core
(`src/utils/analytics.ts`, newer schema generation).

Numbers are embedded as rationals (`ℚ`): every arithmetic operation the
aggregators perform (addition, subtraction, absolute value, division with a
guarded denominator, max/min, multiplication by 100) is exact on the inputs
the claims consider, so `ℚ` is a faithful model of the JavaScript number
semantics on the guarded paths.  The JavaScript `Infinity` sentinel used by
`profitFactor` is embedded by the two-constructor type `QInf`.  Nullable
fields are `Option`; JavaScript truthiness of `x || d` on numbers (where `0`
is falsy) is embedded by `jsOrQ`, and on strings (where `""` is falsy) by
`jsOrStr`.  Dates are embedded as natural-number millisecond timestamps:
`new Date(s).getTime()` is the timestamp itself and sorting by it is sorting
by the numeric key.
-/

namespace TradeJourn

/-- Trade outcome `status` values of the newer schema (`'win' | 'loss' |
'breakeven'`); the record stores `Option TradeStatus`, `none` being SQL null. -/
inductive TradeStatus where
  | win
  | loss
  | breakeven
deriving DecidableEq, Repr

/-- The `emotions_array` field arrives as a native array, a string, or null. -/
inductive EmotionsField where
  | null
  | strV (s : String)
  | arr (l : List String)
deriving DecidableEq, Repr

/-- The analytics-relevant fields of a `Trade` record (`types/trade.ts`,
newer generation assembled in `useTrades`).  `rr_value` embeds the source
field `risk_reward_ratio`.  Defaults let concrete witnesses set only the
fields they use; the analytics functions never read a field the claims do
not mention. -/
structure Trade where
  symbol : String := ""
  asset_class : String := "forex"
  entry_date : Nat := 0
  exit_date : Option Nat := none
  profit_loss : Option ℚ := none
  status : Option TradeStatus := none
  exit_reason : Option String := none
  rr_value : Option ℚ := none
  pips : Option ℚ := none
  risk_amount : Option ℚ := none
  reward_amount : Option ℚ := none
  strategy : Option String := none
  emotions_array : EmotionsField := .null
  rule_in_plan : Option String := none
  rule_bos : Option String := none
  rule_liquidity : Option String := none
  rule_trend : Option String := none
  rule_news : Option String := none
  rule_rr : Option String := none
  rule_emotions : Option String := none
  rule_lot_size : Option String := none
  setup_type : Option String := none
deriving Repr

/-- JavaScript `x || d` on a nullable number: `null` and `0` are falsy. -/
def jsOrQ : Option ℚ → ℚ → ℚ
  | none, d => d
  | some x, d => if x = 0 then d else x

/-- JavaScript `s || d` on a nullable string: `null` and `""` are falsy. -/
def jsOrStr : Option String → String → String
  | none, d => d
  | some s, d => if s = "" then d else s

/-- JavaScript truthiness of a nullable string (used by `filter(t => t.f)`). -/
def strTruthy : Option String → Bool
  | none => false
  | some s => s ≠ ""

/-- The P&L resolution pattern repeated inline by every aggregator:
`t.reward_amount !== null ? (t.status === 'loss' ? -Math.abs(t.reward_amount)
: t.reward_amount) : (t.profit_loss || 0)`. -/
def effPL (t : Trade) : ℚ :=
  match t.reward_amount with
  | some r => if t.status = some .loss then -|r| else r
  | none => jsOrQ t.profit_loss 0

/-- Source: `t.reward_amount || t.profit_loss || 0` — the truthiness-based fallback
used by `totalWinAmount`, `totalLossAmount`, `largestWin`, `largestLoss`
inside `calculateStats` (note: distinct from the null-check in `effPL`). -/
def fallbackPL (t : Trade) : ℚ :=
  jsOrQ t.reward_amount (jsOrQ t.profit_loss 0)

/-- Source: `trades.filter(t => t.status)` — completed trades. -/
def completedOf (ts : List Trade) : List Trade :=
  ts.filter fun t => t.status.isSome

/-- The embedded value of JavaScript +Infinity-or-finite numbers, used for
`profitFactor`. -/
inductive QInf where
  | fin (q : ℚ)
  | inf
deriving DecidableEq, Repr

/-- The record returned by `calculateStats` (interface `TradeStats`). -/
structure TradeStats where
  totalTrades : Nat
  winningTrades : Nat
  losingTrades : Nat
  breakevenTrades : Nat
  winRate : ℚ
  totalProfitLoss : ℚ
  averageWin : ℚ
  averageLoss : ℚ
  largestWin : ℚ
  largestLoss : ℚ
  profitFactor : QInf
  averageRR : ℚ
  expectancy : ℚ
  averageRiskAmount : ℚ
  totalRiskAmount : ℚ
  averagePips : ℚ
  totalPips : ℚ
deriving DecidableEq, Repr

/-! The source computes `completedTrades` once and derives everything from
it; the helpers below take that completed list `cs` as their argument, and
`calculateStats` applies them to `completedOf trades`. -/

/-- Source: `completedTrades.filter(t => t.status === 'win')`. -/
def winsIn (cs : List Trade) : List Trade :=
  cs.filter fun t => t.status = some .win

/-- Source: `completedTrades.filter(t => t.status === 'loss')`. -/
def lossesIn (cs : List Trade) : List Trade :=
  cs.filter fun t => t.status = some .loss

/-- Source: `completedTrades.filter(t => t.status === 'breakeven')`. -/
def breakevenIn (cs : List Trade) : List Trade :=
  cs.filter fun t => t.status = some .breakeven

/-- Source: `completedTrades.reduce((sum, t) => ..., 0)` — total P&L with the
null-check `reward_amount` resolution. -/
def totalPLIn (cs : List Trade) : ℚ :=
  cs.foldl (fun sum t => sum + effPL t) 0

/-- Source: `wins.reduce((sum, t) => sum + Math.abs(t.reward_amount || t.profit_loss || 0), 0)`. -/
def totalWinAmountIn (cs : List Trade) : ℚ :=
  (winsIn cs).foldl (fun sum t => sum + |fallbackPL t|) 0

/-- Source: `losses.reduce((sum, t) => sum + Math.abs(t.reward_amount || t.profit_loss || 0), 0)`. -/
def totalLossAmountIn (cs : List Trade) : ℚ :=
  (lossesIn cs).foldl (fun sum t => sum + |fallbackPL t|) 0

/-- Source: `wins.length > 0 ? totalWinAmount / wins.length : 0`. -/
def averageWinIn (cs : List Trade) : ℚ :=
  if (winsIn cs).length > 0 then totalWinAmountIn cs / (winsIn cs).length else 0

/-- Source: `losses.length > 0 ? totalLossAmount / losses.length : 0`. -/
def averageLossIn (cs : List Trade) : ℚ :=
  if (lossesIn cs).length > 0 then totalLossAmountIn cs / (lossesIn cs).length else 0

/-- Source: `wins.map(t => Math.abs(t.reward_amount || t.profit_loss || 0))`. -/
def winAmountsIn (cs : List Trade) : List ℚ :=
  (winsIn cs).map fun t => |fallbackPL t|

/-- Source: `losses.map(t => -Math.abs(t.reward_amount || t.profit_loss || 0))`. -/
def lossAmountsIn (cs : List Trade) : List ℚ :=
  (lossesIn cs).map fun t => -|fallbackPL t|

/-- Source: `winAmounts.length > 0 ? Math.max(...winAmounts) : 0`. -/
def largestWinIn (cs : List Trade) : ℚ :=
  match winAmountsIn cs with
  | [] => 0
  | x :: xs => xs.foldl max x

/-- Source: `lossAmounts.length > 0 ? Math.min(...lossAmounts) : 0`. -/
def largestLossIn (cs : List Trade) : ℚ :=
  match lossAmountsIn cs with
  | [] => 0
  | x :: xs => xs.foldl min x

/-- Source: `totalLossAmount > 0 ? totalWinAmount / totalLossAmount :
totalWinAmount > 0 ? Infinity : 0`. -/
def profitFactorIn (cs : List Trade) : QInf :=
  if totalLossAmountIn cs > 0 then .fin (totalWinAmountIn cs / totalLossAmountIn cs)
  else if totalWinAmountIn cs > 0 then .inf
  else .fin 0

/-- Source: `completedTrades.filter(t => t.risk_reward_ratio !== null)`. -/
def tradesWithRRIn (cs : List Trade) : List Trade :=
  cs.filter fun t => t.rr_value.isSome

/-- Source: `averageRR`: mean of logged ratios when any exist, else the
`averageWin / averageLoss` fallback (0 when `averageLoss` is 0). -/
def averageRRIn (cs : List Trade) : ℚ :=
  if (tradesWithRRIn cs).length > 0 then
    ((tradesWithRRIn cs).foldl (fun sum t => sum + jsOrQ t.rr_value 0) 0)
      / (tradesWithRRIn cs).length
  else if averageLossIn cs > 0 then averageWinIn cs / averageLossIn cs else 0

/-- Source: `completedTrades.length > 0 ? (wins.length / completedTrades.length) * 100 : 0`. -/
def winRateIn (cs : List Trade) : ℚ :=
  if cs.length > 0 then ((winsIn cs).length : ℚ) / (cs.length : ℚ) * 100 else 0

/-- Source: `completedTrades.length > 0 ? losses.length / completedTrades.length : 0`. -/
def lossRateIn (cs : List Trade) : ℚ :=
  if cs.length > 0 then ((lossesIn cs).length : ℚ) / (cs.length : ℚ) else 0

/-- Source: `(winRate / 100 * averageWin) - (lossRate * averageLoss)`. -/
def expectancyIn (cs : List Trade) : ℚ :=
  winRateIn cs / 100 * averageWinIn cs - lossRateIn cs * averageLossIn cs

/-- Source: `completedTrades.filter(t => t.risk_amount !== null)` and its sum/mean. -/
def tradesWithRiskIn (cs : List Trade) : List Trade :=
  cs.filter fun t => t.risk_amount.isSome

/-- Source: `tradesWithRisk.reduce((sum, t) => sum + (t.risk_amount || 0), 0)`. -/
def totalRiskAmountIn (cs : List Trade) : ℚ :=
  (tradesWithRiskIn cs).foldl (fun sum t => sum + jsOrQ t.risk_amount 0) 0

/-- Source: `tradesWithRisk.length > 0 ? totalRiskAmount / tradesWithRisk.length : 0`. -/
def averageRiskAmountIn (cs : List Trade) : ℚ :=
  if (tradesWithRiskIn cs).length > 0 then
    totalRiskAmountIn cs / (tradesWithRiskIn cs).length
  else 0

/-- Source: `completedTrades.filter(t => t.pips !== null)` and its sum/mean. -/
def tradesWithPipsIn (cs : List Trade) : List Trade :=
  cs.filter fun t => t.pips.isSome

/-- Source: `tradesWithPips.reduce((sum, t) => sum + (t.pips || 0), 0)`. -/
def totalPipsIn (cs : List Trade) : ℚ :=
  (tradesWithPipsIn cs).foldl (fun sum t => sum + jsOrQ t.pips 0) 0

/-- Source: `tradesWithPips.length > 0 ? totalPips / tradesWithPips.length : 0`. -/
def averagePipsIn (cs : List Trade) : ℚ :=
  if (tradesWithPipsIn cs).length > 0 then
    totalPipsIn cs / (tradesWithPipsIn cs).length
  else 0

/-- The record `calculateStats` assembles from a completed-trade list. -/
def mkStats (cs : List Trade) : TradeStats where
  totalTrades := cs.length
  winningTrades := (winsIn cs).length
  losingTrades := (lossesIn cs).length
  breakevenTrades := (breakevenIn cs).length
  winRate := winRateIn cs
  totalProfitLoss := totalPLIn cs
  averageWin := averageWinIn cs
  averageLoss := averageLossIn cs
  largestWin := largestWinIn cs
  largestLoss := largestLossIn cs
  profitFactor := profitFactorIn cs
  averageRR := averageRRIn cs
  expectancy := expectancyIn cs
  averageRiskAmount := averageRiskAmountIn cs
  totalRiskAmount := totalRiskAmountIn cs
  averagePips := averagePipsIn cs
  totalPips := totalPipsIn cs

/-- Source: `export function calculateStats(trades: Trade[]): TradeStats`. -/
def calculateStats (trades : List Trade) : TradeStats :=
  mkStats (completedOf trades)

/-- The all-zero statistics record returned on inputs with no completed
trades. -/
def zeroStats : TradeStats where
  totalTrades := 0
  winningTrades := 0
  losingTrades := 0
  breakevenTrades := 0
  winRate := 0
  totalProfitLoss := 0
  averageWin := 0
  averageLoss := 0
  largestWin := 0
  largestLoss := 0
  profitFactor := .fin 0
  averageRR := 0
  expectancy := 0
  averageRiskAmount := 0
  totalRiskAmount := 0
  averagePips := 0
  totalPips := 0

/-! ### Equity curve (`getEquityCurve`) -/

/-- Source: `new Date(t.exit_date!).getTime()` — the numeric sort key. -/
def exitKeyOf (t : Trade) : Nat :=
  t.exit_date.getD 0

/-- Source: `t.exit_date && t.status` — the equity-curve filter predicate. -/
def eqCurvePred (t : Trade) : Bool :=
  t.exit_date.isSome && t.status.isSome

/-- The ascending-by-exit-date comparison the source passes to `.sort`. -/
def exitLe (a b : Trade) : Prop :=
  exitKeyOf a ≤ exitKeyOf b

instance : DecidableRel exitLe := fun x y => Nat.decLe (exitKeyOf x) (exitKeyOf y)

instance : IsTotal Trade exitLe := ⟨fun x y => Nat.le_total (exitKeyOf x) (exitKeyOf y)⟩

instance : IsTrans Trade exitLe := ⟨fun _ _ _ h1 h2 => Nat.le_trans h1 h2⟩

/-- The strict version of the sort key order, used to show sorted outputs
with pairwise-distinct keys are unique. -/
def exitLt (a b : Trade) : Prop :=
  exitKeyOf a < exitKeyOf b

instance : IsAntisymm Trade exitLt :=
  ⟨fun _ _ h1 h2 => absurd (Nat.lt_trans h1 h2) (Nat.lt_irrefl _)⟩

/-- The `map` with the mutable `cumulative` accumulator: each sorted trade
emits `(date, cumulative)` after `cumulative += effPL`. -/
def equityPoints : List Trade → ℚ → List (Nat × ℚ)
  | [], _ => []
  | t :: rest, acc => (exitKeyOf t, acc + effPL t) :: equityPoints rest (acc + effPL t)

/-- Source: `export function getEquityCurve(trades)`: `[...trades].filter(t =>
t.exit_date && t.status).sort((a, b) => dateA - dateB)` then the cumulative
map.  JavaScript `Array.prototype.sort` is a stable ascending sort for the
given comparator, which `List.insertionSort` models exactly. -/
def getEquityCurve (trades : List Trade) : List (Nat × ℚ) :=
  equityPoints (List.insertionSort exitLe (trades.filter eqCurvePred)) 0

/-- State-passing embedding of `getEquityCurve` that tracks the value held by
the caller's `trades` array through the call: `[...trades]` only reads its
receiver, `.filter` allocates a fresh array, and the sole mutating operation
`.sort` is applied to that fresh filter result — so the array the caller
passed in is exactly the second component at every step.  The first
component is the returned curve. -/
def getEquityCurveTracked (trades : List Trade) : List (Nat × ℚ) × List Trade :=
  let spreadCopy := trades
  let filtered := spreadCopy.filter eqCurvePred
  let sortedInPlace := List.insertionSort exitLe filtered
  (equityPoints sortedInPlace 0, trades)

/-! ### Day-of-week performance (`getDayOfWeekPerformance`) -/

/-- One bucket of the `reduce` accumulator keyed by day index. -/
structure DayAcc where
  trades : Nat
  wins : Nat
  profit : ℚ
deriving DecidableEq, Repr

/-- One output row of `getDayOfWeekPerformance`. -/
structure DayRow where
  day : String
  trades : Nat
  winRate : ℚ
  profit : ℚ
deriving DecidableEq, Repr

/-- Source: `new Date(trade.entry_date).getDay()` for a UTC millisecond timestamp:
the Unix epoch (day 0 of the count) was a Thursday, day index 4. -/
def jsGetDay (ms : Nat) : Nat :=
  (ms / 86400000 + 4) % 7

/-- One `reduce` step: bump the bucket at the trade's day index. -/
def dayStep (g : Nat → Option DayAcc) (t : Trade) : Nat → Option DayAcc :=
  fun i =>
    if i = jsGetDay t.entry_date then
      let b := (g i).getD { trades := 0, wins := 0, profit := 0 }
      some { trades := b.trades + 1,
             wins := b.wins + (if t.status = some .win then 1 else 0),
             profit := b.profit + effPL t }
    else g i

/-- The `grouped` record: day index to accumulated bucket (absent = never
touched, like a missing object property). -/
def dayGroups (trades : List Trade) : Nat → Option DayAcc :=
  trades.foldl dayStep fun _ => none

/-- The fixed `days` array of the source. -/
def dayNames : List String :=
  ["Sunday", "Monday", "Tuesday", "Wednesday", "Thursday", "Friday", "Saturday"]

/-- Source: `export function getDayOfWeekPerformance(trades)`: one row per weekday in
fixed order; `grouped[index]?.trades || 0` and friends degrade to 0 when the
bucket is absent (`undefined > 0` is false, `undefined || 0` is 0). -/
def getDayOfWeekPerformance (trades : List Trade) : List DayRow :=
  dayNames.enum.map fun p =>
    { day := p.2.take 3
      trades := match dayGroups trades p.1 with
        | none => 0
        | some b => b.trades
      winRate := match dayGroups trades p.1 with
        | none => 0
        | some b => if b.trades > 0 then (b.wins : ℚ) / (b.trades : ℚ) * 100 else 0
      profit := jsOrQ ((dayGroups trades p.1).map DayAcc.profit) 0 }

/-- The seven all-zero rows returned by `getDayOfWeekPerformance` on an
empty trade set. -/
def zeroDayRows : List DayRow :=
  [{ day := "Sun", trades := 0, winRate := 0, profit := 0 },
   { day := "Mon", trades := 0, winRate := 0, profit := 0 },
   { day := "Tue", trades := 0, winRate := 0, profit := 0 },
   { day := "Wed", trades := 0, winRate := 0, profit := 0 },
   { day := "Thu", trades := 0, winRate := 0, profit := 0 },
   { day := "Fri", trades := 0, winRate := 0, profit := 0 },
   { day := "Sat", trades := 0, winRate := 0, profit := 0 }]

/-- The running cumulative sums of a value list, as the spec words the
equity curve (`cumulative sum of effective_pl in chronological order`):
the k-th entry is the sum of the first k+1 values. -/
def partialSums : List ℚ → List ℚ
  | [] => []
  | x :: xs => x :: (partialSums xs).map (fun q => x + q)

/-! ### Confluence-rule performance (`getRulePerformance`) -/

/-- One output entry of `getRulePerformance` (interface `RuleStats`). -/
structure RuleStats where
  rule : String
  trades : Nat
  wins : Nat
  winRate : ℚ
  totalPL : ℚ
deriving DecidableEq, Repr

/-- The `rules` array of key/label pairs hard-coded in the source — six
entries; `rule_emotions` and `rule_lot_size` are not among them. -/
def rulesList : List (String × String) :=
  [("rule_in_plan", "In Plan"), ("rule_bos", "BOS"), ("rule_liquidity", "Liquidity"),
   ("rule_trend", "Trend"), ("rule_news", "News Check"), ("rule_rr", "1:2 R:R")]

/-- The dynamic field access `(t as any)[rule.key]`. -/
def ruleField (k : String) (t : Trade) : Option String :=
  if k = "rule_in_plan" then t.rule_in_plan
  else if k = "rule_bos" then t.rule_bos
  else if k = "rule_liquidity" then t.rule_liquidity
  else if k = "rule_trend" then t.rule_trend
  else if k = "rule_news" then t.rule_news
  else if k = "rule_rr" then t.rule_rr
  else if k = "rule_emotions" then t.rule_emotions
  else if k = "rule_lot_size" then t.rule_lot_size
  else none

/-- The body of `rules.map(rule => ...)`: statistics over the completed
trades whose answer for this specific rule is `'yes'`. -/
def mkRuleStat (cs : List Trade) (r : String × String) : RuleStats :=
  let tradesWithRule := cs.filter fun t => ruleField r.1 t = some "yes"
  let wins := (tradesWithRule.filter fun t => t.status = some .win).length
  { rule := r.2
    trades := tradesWithRule.length
    wins := wins
    winRate := if tradesWithRule.length > 0 then
        (wins : ℚ) / (tradesWithRule.length : ℚ) * 100
      else 0
    totalPL := tradesWithRule.foldl (fun sum t => sum + effPL t) 0 }

/-- Source: `export function getRulePerformance(trades)`: map over the rule table,
then `.filter(stat => stat.trades > 0)`. -/
def getRulePerformance (trades : List Trade) : List RuleStats :=
  (rulesList.map (mkRuleStat (completedOf trades))).filter fun s => s.trades > 0

/-- The confluence-rule breakdown as the spec words it (restricted to the six
rule fields the code enumerates): for each rule field in order, the entry
exists exactly when at least one completed trade answered yes, and reports
the count, win count, win rate and total effective P&L of exactly those
trades. -/
def rulePerformanceSpec (trades : List Trade) : List RuleStats :=
  rulesList.filterMap fun r =>
    let matching := (completedOf trades).filter fun t => ruleField r.1 t = some "yes"
    let wins := (matching.filter fun t => t.status = some .win).length
    if matching.length > 0 then
      some { rule := r.2
             trades := matching.length
             wins := wins
             winRate := (wins : ℚ) / (matching.length : ℚ) * 100
             totalPL := (matching.map effPL).sum }
    else none

/-! ### Exit-reason statistics (`getExitReasonStats`) -/

/-- One output entry of `getExitReasonStats` (interface `ExitReasonStats`). -/
structure ExitReasonStats where
  reason : String
  count : Nat
  percentage : ℚ
  totalPL : ℚ
deriving DecidableEq, Repr

/-- One accumulator bucket of the grouping `reduce`. -/
structure ExitAcc where
  count : Nat
  totalPL : ℚ
deriving DecidableEq, Repr

/-- Update-or-append on the insertion-ordered association list that models a
JavaScript object keyed by strings (`Object.entries` iterates string keys in
insertion order). -/
def exitUpsert : List (String × ExitAcc) → String → ℚ → List (String × ExitAcc)
  | [], k, pl => [(k, { count := 1, totalPL := pl })]
  | (k0, a) :: rest, k, pl =>
      if k0 = k then (k0, { count := a.count + 1, totalPL := a.totalPL + pl }) :: rest
      else (k0, a) :: exitUpsert rest k pl

/-- Source: `trades.filter(t => t.exit_reason)`. -/
def exitFiltered (trades : List Trade) : List Trade :=
  trades.filter fun t => strTruthy t.exit_reason

/-- The grouping `reduce` keyed by `trade.exit_reason || 'unknown'`. -/
def exitGroups (trades : List Trade) : List (String × ExitAcc) :=
  (exitFiltered trades).foldl
    (fun acc t => exitUpsert acc (jsOrStr t.exit_reason "unknown") (effPL t)) []

/-- The `reasonLabels` display-name table; unknown codes pass through. -/
def reasonLabel (r : String) : String :=
  if r = "tp_hit" then "Take Profit Hit"
  else if r = "sl_hit" then "Stop Loss Hit"
  else if r = "manual_close" then "Manual Close"
  else if r = "breakeven" then "Breakeven Exit"
  else r

/-- The descending-by-count comparison `(a, b) => b.count - a.count`. -/
def countGe (a b : ExitReasonStats) : Prop :=
  b.count ≤ a.count

instance : DecidableRel countGe := fun x y => Nat.decLe y.count x.count

instance : IsTotal ExitReasonStats countGe := ⟨fun a b => Nat.le_total b.count a.count⟩

instance : IsTrans ExitReasonStats countGe := ⟨fun _ _ _ h1 h2 => Nat.le_trans h2 h1⟩

/-- Source: `export function getExitReasonStats(trades)`. -/
def getExitReasonStats (trades : List Trade) : List ExitReasonStats :=
  let total := (exitFiltered trades).length
  List.insertionSort countGe
    ((exitGroups trades).map fun p =>
      { reason := reasonLabel p.1
        count := p.2.count
        percentage := if total > 0 then (p.2.count : ℚ) / (total : ℚ) * 100 else 0
        totalPL := p.2.totalPL })

/-! ### Emotion-tag normalization (inside `getEmotionPerformance`)

The JavaScript string methods the normalization uses (`trim`, `split(',')`,
`startsWith`/`endsWith` on a one-character prefix, `replace(/"/g, '')`,
`includes(',')`, `toUpperCase`, `toLowerCase`, `.length`, `charAt(0)` +
`slice(1)`) are modeled over the character list of the string.  All inputs
involved are ASCII, where `.length` is the character count and
`toUpperCase`/`toLowerCase` act characterwise. -/

/-- JavaScript `s.trim()`: strip whitespace from both ends. -/
def jsTrim (s : String) : String :=
  ⟨((s.data.dropWhile Char.isWhitespace).reverse.dropWhile Char.isWhitespace).reverse⟩

/-- JavaScript `.length` (character count on the ASCII inputs involved). -/
def jsLen (s : String) : Nat :=
  s.data.length

/-- Splitting engine for `s.split(sep)` with a one-character separator. -/
def jsSplitAux (sep : Char) : List Char → List Char → List (List Char)
  | [], cur => [cur.reverse]
  | c :: rest, cur =>
      if c = sep then cur.reverse :: jsSplitAux sep rest []
      else jsSplitAux sep rest (c :: cur)

/-- JavaScript `s.split(sep)` for a one-character separator (`""` splits to
`[""]`, like in JavaScript). -/
def jsSplit (s : String) (sep : Char) : List String :=
  (jsSplitAux sep s.data []).map fun l => ⟨l⟩

/-- JavaScript `s.startsWith(c)` for a one-character prefix. -/
def jsStartsWith (s : String) (c : Char) : Bool :=
  match s.data with
  | [] => false
  | c0 :: _ => c0 = c

/-- JavaScript `s.endsWith(c)` for a one-character suffix. -/
def jsEndsWith (s : String) (c : Char) : Bool :=
  match s.data.reverse with
  | [] => false
  | c0 :: _ => c0 = c

/-- JavaScript `s.substring(1, s.length - 1)`: drop first and last character. -/
def jsInner (s : String) : String :=
  ⟨(s.data.drop 1).dropLast⟩

/-- JavaScript `s.replace(/"/g, '')`: delete every double-quote character. -/
def jsStripQuotes (s : String) : String :=
  ⟨s.data.filter fun c => c ≠ '\x22'⟩

/-- JavaScript `s.includes(',')`. -/
def jsHasComma (s : String) : Bool :=
  s.data.any fun c => c = ','

/-- JavaScript `s.toUpperCase()` on ASCII input. -/
def jsToUpper (s : String) : String :=
  ⟨s.data.map Char.toUpper⟩

/-- Models `JSON.parse` restricted to the shape this field can carry when it
begins with a bracket: a flat JSON array of string literals.  Any other
content yields `none`, which the caller turns into `[str]` exactly like the
source's `catch` branch. -/
def jsonParseStrArr (s : String) : Option (List String) :=
  let inner := jsTrim (jsInner s)
  if inner = "" then some []
  else
    let items := (jsSplit inner ',').map jsTrim
    if items.all (fun it => 2 ≤ jsLen it && jsStartsWith it '\x22' && jsEndsWith it '\x22') then
      some (items.map jsInner)
    else none

/-- Step 1 of the normalization: extract `rawEmotions` from the stored
`emotions_array` value (native array, JSON-bracket string, Postgres-brace
string, comma-delimited string, bare token, or null). -/
def extractRaw : EmotionsField → List String
  | .arr l => l
  | .null => []
  | .strV s =>
      let str := jsTrim s
      if jsStartsWith str '[' && jsEndsWith str ']' then
        match jsonParseStrArr str with
        | some l => l
        | none => [str]
      else if jsStartsWith str '\x7b' && jsEndsWith str '\x7d' then
        (jsSplit (jsInner str) ',').map fun x => jsTrim (jsStripQuotes x)
      else if jsHasComma str then
        (jsSplit str ',').map jsTrim
      else if str ≠ "" then [str]
      else []

/-- Step 2: the synthetic tag contributed by `rule_emotions`. -/
def ruleEmotionTag (t : Trade) : List String :=
  if t.rule_emotions = some "yes" then ["Calm"]
  else if t.rule_emotions = some "no" then ["Anxious"]
  else []

/-- The raw tag list before normalization: extracted tags plus the synthetic
`rule_emotions` tag pushed at the end. -/
def rawEmotionsOf (t : Trade) : List String :=
  extractRaw t.emotions_array ++ ruleEmotionTag t

/-- The per-tag case normalization: any casing of `FOMO` stays uppercase,
everything else becomes `charAt(0).toUpperCase() + slice(1).toLowerCase()`. -/
def titleCaseJs (e : String) : String :=
  if jsToUpper e = "FOMO" then "FOMO"
  else match e.data with
    | [] => ""
    | c :: rest => ⟨Char.toUpper c :: rest.map Char.toLower⟩

/-- First-occurrence deduplication, the insertion-order semantics of
`Array.from(new Set(xs))`. -/
def dedupAux : List String → List String → List String
  | [], _ => []
  | x :: xs, seen => if x ∈ seen then dedupAux xs seen else x :: dedupAux xs (x :: seen)

/-- Step 3 (lines 411–421): trim, drop tags of length < 2, case-normalize,
deduplicate.  This is the whole per-trade tag-set normalization of
`getEmotionPerformance`. -/
def normalizeEmotions (t : Trade) : List String :=
  dedupAux ((((rawEmotionsOf t).map jsTrim).filter
    fun e => jsLen e > 1).map titleCaseJs) []

/-! ### Shared lemmas -/

/-- A `reduce((sum, t) => sum + f(t), a)` fold is `a` plus the sum of the
mapped values. -/
theorem foldl_add_eq_sum {α : Type} (f : α → ℚ) :
    ∀ (l : List α) (a : ℚ), l.foldl (fun s t => s + f t) a = a + (l.map f).sum := by
  intro l
  induction l with
  | nil => intro a; simp
  | cons x xs ih => intro a; simp [ih, add_assoc]

/-- The gross winning amount is a sum of absolute values, hence nonnegative. -/
theorem totalWinAmountIn_nonneg (cs : List Trade) : 0 ≤ totalWinAmountIn cs := by
  rw [totalWinAmountIn, foldl_add_eq_sum, zero_add]
  refine List.sum_nonneg ?_
  intro q hq
  obtain ⟨t, _, rfl⟩ := List.mem_map.mp hq
  exact abs_nonneg _

/-- The gross losing amount is a sum of absolute values, hence nonnegative. -/
theorem totalLossAmountIn_nonneg (cs : List Trade) : 0 ≤ totalLossAmountIn cs := by
  rw [totalLossAmountIn, foldl_add_eq_sum, zero_add]
  refine List.sum_nonneg ?_
  intro q hq
  obtain ⟨t, _, rfl⟩ := List.mem_map.mp hq
  exact abs_nonneg _

/-- Filtering to completed trades is idempotent. -/
theorem completedOf_idem (ts : List Trade) : completedOf (completedOf ts) = completedOf ts := by
  simp [completedOf, List.filter_filter]

/-! ### C9 -/

/-- C9: `totalTrades` counts the trades with non-null `status`, not the
full input list; and the whole statistics record only depends on those
completed trades (filtering the input to them leaves every field unchanged). -/
theorem calculateStats_counts_completed (ts : List Trade) :
    (calculateStats ts).totalTrades = (ts.filter fun t => t.status.isSome).length ∧
    calculateStats (ts.filter fun t => t.status.isSome) = calculateStats ts := by
  refine ⟨rfl, ?_⟩
  unfold calculateStats
  rw [show (ts.filter fun t => t.status.isSome) = completedOf ts from rfl, completedOf_idem]

/-! ### C7 -/

/-- C7: for every input, `0 ≤ winRate ≤ 100`; `winRate = 0` when there
are no completed trades, and otherwise it is
`count(wins) / count(completed) × 100`. -/
theorem winRate_bounded (ts : List Trade) :
    0 ≤ (calculateStats ts).winRate ∧ (calculateStats ts).winRate ≤ 100 ∧
    ((completedOf ts).length = 0 → (calculateStats ts).winRate = 0) ∧
    (0 < (completedOf ts).length →
      (calculateStats ts).winRate =
        ((winsIn (completedOf ts)).length : ℚ) / ((completedOf ts).length : ℚ) * 100) := by
  have hrate : (calculateStats ts).winRate = winRateIn (completedOf ts) := rfl
  by_cases h : 0 < (completedOf ts).length
  · have hc : (0 : ℚ) < ((completedOf ts).length : ℚ) := by exact_mod_cast h
    have hw : ((winsIn (completedOf ts)).length : ℚ) ≤ ((completedOf ts).length : ℚ) := by
      exact_mod_cast List.length_filter_le _ _
    have hwr : winRateIn (completedOf ts) =
        ((winsIn (completedOf ts)).length : ℚ) / ((completedOf ts).length : ℚ) * 100 := by
      rw [winRateIn, if_pos h]
    refine ⟨?_, ?_, fun h0 => absurd h0 (Nat.pos_iff_ne_zero.mp h), fun _ => by rw [hrate, hwr]⟩
    · rw [hrate, hwr]
      positivity
    · rw [hrate, hwr]
      have h1 : ((winsIn (completedOf ts)).length : ℚ) / ((completedOf ts).length : ℚ) ≤ 1 :=
        (div_le_one hc).mpr hw
      calc ((winsIn (completedOf ts)).length : ℚ) / ((completedOf ts).length : ℚ) * 100
          ≤ 1 * 100 := mul_le_mul_of_nonneg_right h1 (by norm_num)
        _ = 100 := one_mul 100
  · have h0 : (completedOf ts).length = 0 := Nat.eq_zero_of_not_pos h
    have hwr : winRateIn (completedOf ts) = 0 := by rw [winRateIn, if_neg h]
    exact ⟨by rw [hrate, hwr], by rw [hrate, hwr]; norm_num,
      fun _ => by rw [hrate, hwr], fun hlt => absurd hlt h⟩

/-- Witness for C7 at a concrete two-trade list (one win, one loss):
the completed count is positive and the formula applies. -/
theorem winRate_bounded_witness :
    0 < (completedOf [{ status := some TradeStatus.win },
      { status := some TradeStatus.loss }]).length ∧
    (calculateStats [{ status := some TradeStatus.win },
      { status := some TradeStatus.loss }]).winRate =
      ((winsIn (completedOf [{ status := some TradeStatus.win },
        { status := some TradeStatus.loss }])).length : ℚ) /
      ((completedOf [{ status := some TradeStatus.win },
        { status := some TradeStatus.loss }]).length : ℚ) * 100 :=
  ⟨by decide, (winRate_bounded _).2.2.2 (by decide)⟩

/-! ### C6 -/

/-- C6: the aggregators degrade to well-formed zero output instead of
failing: `calculateStats` of the empty list is the all-zero record, the
day-of-week breakdown of the empty list is seven all-zero rows, and any
input without completed trades (however null-ridden) also yields the
all-zero record. -/
theorem aggregators_degrade_to_zero (ts : List Trade) :
    calculateStats [] = zeroStats ∧
    getDayOfWeekPerformance [] = zeroDayRows ∧
    ((completedOf ts).length = 0 → calculateStats ts = zeroStats) := by
  have hempty : mkStats [] = zeroStats := by
    simp [mkStats, zeroStats, winRateIn, lossRateIn, expectancyIn, averageWinIn, averageLossIn,
      totalWinAmountIn, totalLossAmountIn, totalPLIn, winsIn, lossesIn, breakevenIn,
      winAmountsIn, lossAmountsIn, largestWinIn, largestLossIn, profitFactorIn, averageRRIn,
      tradesWithRRIn, tradesWithRiskIn, tradesWithPipsIn, totalRiskAmountIn, averageRiskAmountIn,
      totalPipsIn, averagePipsIn]
  refine ⟨?_, by decide, fun h => ?_⟩
  · show mkStats (completedOf []) = zeroStats
    rw [show completedOf [] = [] from rfl, hempty]
  · have hnil : completedOf ts = [] := List.length_eq_zero.mp h
    unfold calculateStats
    rw [hnil, hempty]

/-! ### C8 -/

/-- Update-or-append bumps the total stored count by exactly one. -/
theorem exitUpsert_count_sum (k : String) (pl : ℚ) :
    ∀ acc : List (String × ExitAcc),
      ((exitUpsert acc k pl).map fun p => p.2.count).sum =
        ((acc.map fun p => p.2.count).sum) + 1 := by
  intro acc
  induction acc with
  | nil => rfl
  | cons p rest ih =>
      obtain ⟨k0, a⟩ := p
      by_cases h : k0 = k
      · simp [exitUpsert, h]
        omega
      · simp [exitUpsert, h, ih]
        omega

/-- The grouped counts sum to the number of filtered trades. -/
theorem exitGroups_count_sum (ts : List Trade) :
    ((exitGroups ts).map fun p => p.2.count).sum = (exitFiltered ts).length := by
  have gen : ∀ (l : List Trade) (acc : List (String × ExitAcc)),
      ((l.foldl (fun acc t => exitUpsert acc (jsOrStr t.exit_reason "unknown") (effPL t)) acc).map
        fun p => p.2.count).sum = ((acc.map fun p => p.2.count).sum) + l.length := by
    intro l
    induction l with
    | nil => intro acc; simp
    | cons t rest ih =>
        intro acc
        simp only [List.foldl_cons]
        rw [ih, exitUpsert_count_sum]
        simp only [List.length_cons]
        omega
  simpa using gen (exitFiltered ts) []

/-- Summing `count / T * 100` over buckets factors through the sum of the
counts. -/
theorem sum_count_div (T : ℚ) :
    ∀ gs : List (String × ExitAcc),
      ((gs.map fun p => ((p.2.count : ℚ)) / T * 100).sum) =
        (((((gs.map fun p => p.2.count).sum : ℕ)) : ℚ)) / T * 100 := by
  intro gs
  induction gs with
  | nil => simp
  | cons p rest ih =>
      simp only [List.map_cons, List.sum_cons, ih]
      push_cast
      ring

/-- C8: when at least one trade has a non-null `exit_reason`, the
`percentage` fields of the buckets returned by `getExitReasonStats` sum to
exactly 100 as rationals, and the buckets are sorted by count descending. -/
theorem exitReason_percentages (ts : List Trade) :
    ((exitFiltered ts).length ≠ 0 →
      (((getExitReasonStats ts).map fun s => s.percentage).sum) = 100) ∧
    List.Sorted countGe (getExitReasonStats ts) := by
  constructor
  · intro hne
    have hTpos : 0 < (exitFiltered ts).length := Nat.pos_of_ne_zero hne
    have hTQ : (((exitFiltered ts).length : ℚ)) ≠ 0 := by exact_mod_cast hne
    simp only [getExitReasonStats]
    rw [((List.perm_insertionSort countGe _).map
      (fun s : ExitReasonStats => s.percentage)).sum_eq]
    rw [List.map_map]
    show (((exitGroups ts).map fun p => if (exitFiltered ts).length > 0 then
      ((p.2.count : ℚ)) / (((exitFiltered ts).length : ℚ)) * 100 else 0).sum) = 100
    have hmap : ((exitGroups ts).map fun p => if (exitFiltered ts).length > 0 then
        ((p.2.count : ℚ)) / (((exitFiltered ts).length : ℚ)) * 100 else 0) =
        (exitGroups ts).map fun p => ((p.2.count : ℚ)) / (((exitFiltered ts).length : ℚ)) * 100 :=
      List.map_congr_left fun p _ => if_pos hTpos
    rw [hmap, sum_count_div, exitGroups_count_sum, div_self hTQ, one_mul]
  · show List.Sorted countGe (getExitReasonStats ts)
    simp only [getExitReasonStats]
    exact List.sorted_insertionSort countGe _

/-- Witness for C8 at three trades with exit reasons (two `tp_hit`, one
`sl_hit`): the filtered set is non-empty and the percentages sum to 100. -/
theorem exitReason_percentages_witness :
    (exitFiltered [({ exit_reason := some "tp_hit" } : Trade), { exit_reason := some "sl_hit" }, { exit_reason := some "tp_hit" }]).length ≠ 0 ∧
    (((getExitReasonStats [({ exit_reason := some "tp_hit" } : Trade), { exit_reason := some "sl_hit" }, { exit_reason := some "tp_hit" }]).map fun s => s.percentage).sum) = 100 :=
  ⟨by decide, (exitReason_percentages _).1 (by decide)⟩

/-! ### C5 -/

/-- Membership in the first-occurrence deduplication: an element appears
exactly when it is in the list and not among the already-seen elements. -/
theorem mem_dedupAux :
    ∀ (l seen : List String) (x : String), x ∈ dedupAux l seen ↔ (x ∈ l ∧ x ∉ seen) := by
  intro l
  induction l with
  | nil => intro seen x; simp [dedupAux]
  | cons y ys ih =>
      intro seen x
      by_cases hy : y ∈ seen
      · rw [show dedupAux (y :: ys) seen = dedupAux ys seen from by simp [dedupAux, hy]]
        rw [ih seen x]
        constructor
        · rintro ⟨h1, h2⟩
          exact ⟨List.mem_cons_of_mem _ h1, h2⟩
        · rintro ⟨h1, h2⟩
          rcases List.mem_cons.mp h1 with rfl | h1
          · exact absurd hy h2
          · exact ⟨h1, h2⟩
      · rw [show dedupAux (y :: ys) seen = y :: dedupAux ys (y :: seen) from by
          simp [dedupAux, hy]]
        rw [List.mem_cons, ih (y :: seen) x]
        constructor
        · rintro (rfl | ⟨h1, h2⟩)
          · exact ⟨List.mem_cons_self _ _, hy⟩
          · exact ⟨List.mem_cons_of_mem _ h1,
              fun hseen => h2 (List.mem_cons_of_mem _ hseen)⟩
        · rintro ⟨h1, h2⟩
          by_cases hxy : x = y
          · exact Or.inl hxy
          · rcases List.mem_cons.mp h1 with rfl | h1
            · exact Or.inl rfl
            · right
              refine ⟨h1, fun hmem => ?_⟩
              rcases List.mem_cons.mp hmem with h | h
              · exact hxy h
              · exact h2 h

/-- First-occurrence deduplication produces a duplicate-free list. -/
theorem dedupAux_nodup : ∀ (l seen : List String), (dedupAux l seen).Nodup := by
  intro l
  induction l with
  | nil => intro seen; exact List.nodup_nil
  | cons y ys ih =>
      intro seen
      by_cases hy : y ∈ seen
      · rw [show dedupAux (y :: ys) seen = dedupAux ys seen from by simp [dedupAux, hy]]
        exact ih seen
      · rw [show dedupAux (y :: ys) seen = y :: dedupAux ys (y :: seen) from by
          simp [dedupAux, hy]]
        refine List.nodup_cons.mpr ⟨fun hmem => ?_, ih _⟩
        exact ((mem_dedupAux _ _ _).mp hmem).2 (List.mem_cons_self _ _)

/-- C5: the emotion-tag normalization maps the native array
`["FOMO","Revenge"]`, the Postgres brace string, and the comma-delimited
string `"FOMO, Revenge"` to the same tag list; every surviving tag comes
from a raw tag whose trim has length ≥ 2 (shorter ones are discarded) and
is its title-cased form (FOMO uppercased); `rule_emotions` adds Calm /
Anxious; and the per-trade tag set is duplicate-free. -/
theorem emotion_tags_normalize :
    normalizeEmotions { emotions_array := .arr ["FOMO", "Revenge"] } = ["FOMO", "Revenge"] ∧
    normalizeEmotions { emotions_array := .strV "\x7bFOMO,revenge\x7d" } = ["FOMO", "Revenge"] ∧
    normalizeEmotions { emotions_array := .strV "FOMO, Revenge" } = ["FOMO", "Revenge"] ∧
    (∀ t : Trade, ∀ tag ∈ normalizeEmotions t,
      ∃ e ∈ rawEmotionsOf t, 1 < jsLen (jsTrim e) ∧ tag = titleCaseJs (jsTrim e)) ∧
    (∀ t : Trade, t.rule_emotions = some "yes" → "Calm" ∈ normalizeEmotions t) ∧
    (∀ t : Trade, t.rule_emotions = some "no" → "Anxious" ∈ normalizeEmotions t) ∧
    (∀ t : Trade, (normalizeEmotions t).Nodup) := by
  refine ⟨by decide, by decide, by decide, ?_, ?_, ?_, fun t => dedupAux_nodup _ _⟩
  · intro t tag htag
    have h1 := ((mem_dedupAux _ _ _).mp htag).1
    obtain ⟨e1, he1, rfl⟩ := List.mem_map.mp h1
    have h2 := List.mem_filter.mp he1
    obtain ⟨e, he, rfl⟩ := List.mem_map.mp h2.1
    refine ⟨e, he, ?_, rfl⟩
    simpa using h2.2
  · intro t h
    apply (mem_dedupAux _ _ _).mpr
    refine ⟨?_, List.not_mem_nil _⟩
    apply List.mem_map.mpr
    refine ⟨"Calm", ?_, by decide⟩
    apply List.mem_filter.mpr
    refine ⟨?_, by decide⟩
    apply List.mem_map.mpr
    refine ⟨"Calm", ?_, by decide⟩
    apply List.mem_append.mpr
    right
    rw [ruleEmotionTag, if_pos h]
    exact List.mem_singleton.mpr rfl
  · intro t h
    apply (mem_dedupAux _ _ _).mpr
    refine ⟨?_, List.not_mem_nil _⟩
    apply List.mem_map.mpr
    refine ⟨"Anxious", ?_, by decide⟩
    apply List.mem_filter.mpr
    refine ⟨?_, by decide⟩
    apply List.mem_map.mpr
    refine ⟨"Anxious", ?_, by decide⟩
    apply List.mem_append.mpr
    right
    rw [ruleEmotionTag]
    rw [if_neg (by rw [h]; decide), if_pos h]
    exact List.mem_singleton.mpr rfl

/-- Witness for C5 at a trade with a brace-delimited emotion string and
`rule_emotions = 'yes'`: Calm joins the set and the set has no duplicates. -/
theorem emotion_tags_normalize_witness :
    (({ emotions_array := .strV "\x7bFOMO,revenge\x7d", rule_emotions := some "yes" } : Trade).rule_emotions = some "yes") ∧
    "Calm" ∈ normalizeEmotions { emotions_array := .strV "\x7bFOMO,revenge\x7d", rule_emotions := some "yes" } ∧
    (normalizeEmotions { emotions_array := .strV "\x7bFOMO,revenge\x7d", rule_emotions := some "yes" }).Nodup :=
  ⟨rfl, emotion_tags_normalize.2.2.2.2.1 _ rfl, emotion_tags_normalize.2.2.2.2.2.2 _⟩

/-! ### C3 -/

/-- C3 counterexample: a single winning trade with all-null amount
fields has wins but zero losses, yet `profitFactor` is the finite 0, not
the Infinity sentinel — the sentinel needs `totalWinAmount > 0`, not merely
the existence of wins. -/
theorem profitFactor_win_without_amount :
    (calculateStats [{ status := some TradeStatus.win }]).winningTrades = 1 ∧
    (calculateStats [{ status := some TradeStatus.win }]).losingTrades = 0 ∧
    (calculateStats [{ status := some TradeStatus.win }]).profitFactor = QInf.fin 0 := by
  refine ⟨by decide, by decide, ?_⟩
  show profitFactorIn (completedOf [{ status := some TradeStatus.win }]) = QInf.fin 0
  simp [profitFactorIn, totalWinAmountIn, totalLossAmountIn, winsIn, lossesIn, completedOf,
    fallbackPL, jsOrQ]

/-- C3 (amended): `profitFactor` is `totalWinAmount / totalLossAmount`
when `totalLossAmount > 0`; it is the Infinity sentinel exactly when
`totalWinAmount > 0` and `totalLossAmount = 0`; and it is 0 when both
amounts are 0. -/
theorem profitFactor_sentinel (ts : List Trade) :
    (0 < totalLossAmountIn (completedOf ts) →
      (calculateStats ts).profitFactor =
        QInf.fin (totalWinAmountIn (completedOf ts) / totalLossAmountIn (completedOf ts))) ∧
    ((calculateStats ts).profitFactor = QInf.inf ↔
      0 < totalWinAmountIn (completedOf ts) ∧ totalLossAmountIn (completedOf ts) = 0) ∧
    ((totalWinAmountIn (completedOf ts) = 0 ∧ totalLossAmountIn (completedOf ts) = 0) →
      (calculateStats ts).profitFactor = QInf.fin 0) := by
  have hW := totalWinAmountIn_nonneg (completedOf ts)
  have hL := totalLossAmountIn_nonneg (completedOf ts)
  have hpf : (calculateStats ts).profitFactor = profitFactorIn (completedOf ts) := rfl
  refine ⟨fun h => ?_, ?_, fun hz => ?_⟩
  · rw [hpf, profitFactorIn, if_pos h]
  · rw [hpf, profitFactorIn]
    by_cases h : 0 < totalLossAmountIn (completedOf ts)
    · rw [if_pos h]
      constructor
      · intro habs
        exact absurd habs (by simp)
      · rintro ⟨_, hl0⟩
        exact absurd hl0 (ne_of_gt h)
    · have hl0 : totalLossAmountIn (completedOf ts) = 0 := le_antisymm (not_lt.mp h) hL
      rw [if_neg h]
      by_cases hw : 0 < totalWinAmountIn (completedOf ts)
      · rw [if_pos hw]
        simp [hw, hl0]
      · rw [if_neg hw]
        constructor
        · intro habs
          exact absurd habs (by simp)
        · rintro ⟨hw0, _⟩
          exact absurd hw0 hw
  · rw [hpf, profitFactorIn, if_neg (by rw [hz.2]; exact lt_irrefl 0),
      if_neg (by rw [hz.1]; exact lt_irrefl 0)]

/-- Witness for C3 at the spec's own scenario (win of 100, loss of 50):
the loss amount is positive and the quotient formula applies, giving 2. -/
theorem profitFactor_sentinel_witness :
    0 < totalLossAmountIn (completedOf [{ status := some TradeStatus.win, reward_amount := some 100 },
      { status := some TradeStatus.loss, reward_amount := some 50 }]) ∧
    (calculateStats [{ status := some TradeStatus.win, reward_amount := some 100 },
      { status := some TradeStatus.loss, reward_amount := some 50 }]).profitFactor =
      QInf.fin (totalWinAmountIn (completedOf [{ status := some TradeStatus.win, reward_amount := some 100 },
        { status := some TradeStatus.loss, reward_amount := some 50 }]) /
        totalLossAmountIn (completedOf [{ status := some TradeStatus.win, reward_amount := some 100 },
          { status := some TradeStatus.loss, reward_amount := some 50 }])) := by
  have h : 0 < totalLossAmountIn (completedOf [{ status := some TradeStatus.win, reward_amount := some 100 },
      { status := some TradeStatus.loss, reward_amount := some 50 }]) := by
    simp [totalLossAmountIn, lossesIn, completedOf, fallbackPL, jsOrQ]
  exact ⟨h, (profitFactor_sentinel _).1 h⟩

/-! ### C1 -/

/-- The dates of the equity points are the sort keys of the underlying list. -/
theorem equityPoints_fst (l : List Trade) :
    ∀ acc : ℚ, (equityPoints l acc).map Prod.fst = l.map exitKeyOf := by
  induction l with
  | nil => intro acc; rfl
  | cons t rest ih => intro acc; simp [equityPoints, ih]

/-- The equities of the equity points are the partial sums of the per-trade
effective P&L values, shifted by the accumulator. -/
theorem equityPoints_snd (l : List Trade) :
    ∀ acc : ℚ, (equityPoints l acc).map Prod.snd =
      (partialSums (l.map effPL)).map (fun q => acc + q) := by
  induction l with
  | nil => intro acc; rfl
  | cons t rest ih =>
      intro acc
      simp only [equityPoints, List.map_cons, partialSums, ih, List.map_map]
      congr 1
      apply List.map_congr_left
      intro q _
      simp [add_assoc]

/-- The number of equity points equals the number of sorted trades. -/
theorem equityPoints_length (l : List Trade) :
    ∀ acc : ℚ, (equityPoints l acc).length = l.length := by
  induction l with
  | nil => intro acc; rfl
  | cons t rest ih => intro acc; simp [equityPoints, ih]

/-- A `Sorted exitLe` list whose keys are pairwise distinct is
`Sorted exitLt`. -/
theorem sorted_exitLt_of_distinct {l : List Trade} (hs : List.Sorted exitLe l)
    (hd : l.Pairwise fun a b => exitKeyOf a ≠ exitKeyOf b) : List.Sorted exitLt l :=
  (List.Pairwise.and hs hd).imp fun h => lt_of_le_of_ne h.1 h.2

/-- Sorting the filtered trades is invariant under permutation of the input
when the filtered trades have pairwise-distinct exit keys. -/
theorem sorted_filter_perm_invariant {l1 l2 : List Trade} (hp : l1.Perm l2)
    (hd : (l1.filter eqCurvePred).Pairwise fun a b => exitKeyOf a ≠ exitKeyOf b) :
    List.insertionSort exitLe (l1.filter eqCurvePred) =
      List.insertionSort exitLe (l2.filter eqCurvePred) := by
  have hpf : (l1.filter eqCurvePred).Perm (l2.filter eqCurvePred) := hp.filter _
  have hperm : (List.insertionSort exitLe (l1.filter eqCurvePred)).Perm
      (List.insertionSort exitLe (l2.filter eqCurvePred)) :=
    (List.perm_insertionSort _ _).trans (hpf.trans (List.perm_insertionSort _ _).symm)
  have hd1 : (List.insertionSort exitLe (l1.filter eqCurvePred)).Pairwise
      (fun a b => exitKeyOf a ≠ exitKeyOf b) :=
    ((List.perm_insertionSort exitLe _).pairwise_iff (fun h => Ne.symm h)).mpr hd
  have hd2 : (List.insertionSort exitLe (l2.filter eqCurvePred)).Pairwise
      (fun a b => exitKeyOf a ≠ exitKeyOf b) :=
    (hperm.pairwise_iff (fun h => Ne.symm h)).mp hd1
  exact List.eq_of_perm_of_sorted hperm
    (sorted_exitLt_of_distinct (List.sorted_insertionSort _ _) hd1)
    (sorted_exitLt_of_distinct (List.sorted_insertionSort _ _) hd2)

/-! ### C4 -/

/-- C4: the equity curve filters to trades with non-null `exit_date` and
non-null `status`, orders them ascending by exit date, and emits the running
cumulative sums of effective P&L: the result is permutation-invariant when
the filtered exit dates are pairwise distinct, its dates are sorted, its
equities are the partial sums over the sorted order, it has one point per
filtered trade, an already-sorted input (including ties) is kept in input
order, and the spec's two-trade example evaluates to
`[(2024-01-01, -50), (2024-01-05, 50)]` (dates as numeric keys). -/
theorem equity_curve_correct :
    (∀ l1 l2 : List Trade, l1.Perm l2 →
      ((l1.filter eqCurvePred).Pairwise fun a b => exitKeyOf a ≠ exitKeyOf b) →
      getEquityCurve l1 = getEquityCurve l2) ∧
    (∀ ts : List Trade, List.Sorted (· ≤ ·) ((getEquityCurve ts).map Prod.fst)) ∧
    (∀ ts : List Trade, (getEquityCurve ts).map Prod.snd =
      partialSums ((List.insertionSort exitLe (ts.filter eqCurvePred)).map effPL)) ∧
    (∀ ts : List Trade, (getEquityCurve ts).length = (ts.filter eqCurvePred).length) ∧
    (∀ ts : List Trade, List.Sorted exitLe (ts.filter eqCurvePred) →
      getEquityCurve ts = equityPoints (ts.filter eqCurvePred) 0) ∧
    getEquityCurve
      [{ exit_date := some 20240105, status := some TradeStatus.win, profit_loss := some 100 },
       { exit_date := some 20240101, status := some TradeStatus.loss, profit_loss := some (-50) }] =
      [(20240101, -50), (20240105, 50)] := by
  refine ⟨?_, ?_, ?_, ?_, ?_, ?_⟩
  · intro l1 l2 hp hd
    rw [getEquityCurve, getEquityCurve, sorted_filter_perm_invariant hp hd]
  · intro ts
    rw [getEquityCurve, equityPoints_fst]
    exact List.pairwise_map.mpr (List.sorted_insertionSort exitLe (ts.filter eqCurvePred))
  · intro ts
    rw [getEquityCurve, equityPoints_snd]
    simp
  · intro ts
    rw [getEquityCurve, equityPoints_length, (List.perm_insertionSort exitLe _).length_eq]
  · intro ts hs
    rw [getEquityCurve, hs.insertionSort_eq]
  · simp [getEquityCurve, List.insertionSort, List.orderedInsert, equityPoints, eqCurvePred,
      exitKeyOf, exitLe, effPL, jsOrQ]
    norm_num

/-- Witness for C4: a concrete out-of-order two-trade list and its reversal
have distinct exit keys and produce the same curve. -/
theorem equity_curve_correct_witness :
    [({ exit_date := some 20240105, status := some TradeStatus.win, profit_loss := some 100 } : Trade),
     { exit_date := some 20240101, status := some TradeStatus.loss, profit_loss := some (-50) }].Perm
      [{ exit_date := some 20240101, status := some TradeStatus.loss, profit_loss := some (-50) },
       { exit_date := some 20240105, status := some TradeStatus.win, profit_loss := some 100 }] ∧
    getEquityCurve
      [{ exit_date := some 20240105, status := some TradeStatus.win, profit_loss := some 100 },
       { exit_date := some 20240101, status := some TradeStatus.loss, profit_loss := some (-50) }] =
    getEquityCurve
      [{ exit_date := some 20240101, status := some TradeStatus.loss, profit_loss := some (-50) },
       { exit_date := some 20240105, status := some TradeStatus.win, profit_loss := some 100 }] := by
  have hp : [({ exit_date := some 20240105, status := some TradeStatus.win, profit_loss := some 100 } : Trade),
      { exit_date := some 20240101, status := some TradeStatus.loss, profit_loss := some (-50) }].Perm
      [{ exit_date := some 20240101, status := some TradeStatus.loss, profit_loss := some (-50) },
       { exit_date := some 20240105, status := some TradeStatus.win, profit_loss := some 100 }] :=
    List.Perm.swap _ _ _
  exact ⟨hp, equity_curve_correct.1 _ _ hp (by decide)⟩

/-! ### C10 -/

/-- C10: the analytics core only reads its input: in the state-passing
embedding of `getEquityCurve` (the one aggregator that calls the mutating
`Array.prototype.sort`, on a fresh filter result of the spread copy), the
caller's array after the call is exactly the input, and the returned curve
agrees with the pure function. -/
theorem aggregators_read_only (ts : List Trade) :
    (getEquityCurveTracked ts).2 = ts ∧ (getEquityCurveTracked ts).1 = getEquityCurve ts :=
  ⟨rfl, rfl⟩

/-- C1 counterexample: a winning trade with `reward_amount = 0` and
`profit_loss = 100`.  `totalProfitLoss` resolves its P&L to 0 (the non-null
`reward_amount`), but `totalWinAmount`/`averageWin`/`largestWin` fall back
through JavaScript truthiness to `profit_loss` and report 100 — they do not
apply the claimed resolution. -/
theorem winAmount_breaks_resolution :
    effPL { status := some TradeStatus.win, reward_amount := some 0, profit_loss := some 100 } = 0 ∧
    (calculateStats [{ status := some TradeStatus.win, reward_amount := some 0, profit_loss := some 100 }]).totalProfitLoss = 0 ∧
    (calculateStats [{ status := some TradeStatus.win, reward_amount := some 0, profit_loss := some 100 }]).averageWin = 100 ∧
    (calculateStats [{ status := some TradeStatus.win, reward_amount := some 0, profit_loss := some 100 }]).largestWin = 100 := by
  refine ⟨by simp [effPL, jsOrQ], ?_, ?_, ?_⟩ <;>
    simp [calculateStats, mkStats, totalPLIn, averageWinIn, totalWinAmountIn, largestWinIn,
      winAmountsIn, winsIn, completedOf, effPL, fallbackPL, jsOrQ]

/-- C1 (amended): for a trade with non-null `reward_amount = r`, the
effective P&L used by `totalProfitLoss`, the equity curve and the per-bucket
sums is `status == 'loss' ? -abs(r) : r`, ignoring `profit_loss`; the
win/loss-amount aggregates of `calculateStats` agree with its absolute value
whenever `r ≠ 0`, but resolve through `reward_amount || profit_loss || 0`
(so a zero `r` falls back to `profit_loss`, as the counterexample shows).
`totalProfitLoss` is the sum of the per-trade effective P&L over completed
trades, and the equity values are its running partial sums over the sorted
filtered trades. -/
theorem effPL_resolution (t : Trade) (r : ℚ) (h : t.reward_amount = some r) :
    effPL t = (if t.status = some TradeStatus.loss then -|r| else r) ∧
    (r ≠ 0 → |fallbackPL t| = |effPL t|) ∧
    (∀ ts : List Trade,
      (calculateStats ts).totalProfitLoss = ((completedOf ts).map effPL).sum ∧
      (getEquityCurve ts).map Prod.snd =
        partialSums ((List.insertionSort exitLe (ts.filter eqCurvePred)).map effPL)) := by
  refine ⟨by simp [effPL, h], fun hr => ?_, fun ts => ⟨?_, ?_⟩⟩
  · simp only [fallbackPL, effPL, h, jsOrQ, if_neg hr]
    by_cases hl : t.status = some TradeStatus.loss
    · rw [if_pos hl, abs_neg, abs_abs]
    · rw [if_neg hl]
  · show totalPLIn (completedOf ts) = ((completedOf ts).map effPL).sum
    rw [totalPLIn, foldl_add_eq_sum, zero_add]
  · rw [getEquityCurve, equityPoints_snd]
    simp

/-- Witness for C1 at a losing trade with `reward_amount = 7` and
`profit_loss = 99`: the resolution gives −7 and the win/loss-amount
fallback agrees in absolute value. -/
theorem effPL_resolution_witness :
    ({ status := some TradeStatus.loss, reward_amount := some 7, profit_loss := some 99 } : Trade).reward_amount = some 7 ∧
    effPL { status := some TradeStatus.loss, reward_amount := some 7, profit_loss := some 99 } =
      (if ({ status := some TradeStatus.loss, reward_amount := some 7, profit_loss := some 99 } : Trade).status = some TradeStatus.loss then -|(7 : ℚ)| else 7) ∧
    |fallbackPL { status := some TradeStatus.loss, reward_amount := some 7, profit_loss := some 99 }| =
      |effPL { status := some TradeStatus.loss, reward_amount := some 7, profit_loss := some 99 }| := by
  have h := effPL_resolution
    { status := some TradeStatus.loss, reward_amount := some 7, profit_loss := some 99 } 7 rfl
  exact ⟨rfl, h.1, h.2.1 (by norm_num)⟩

/-! ### C2 -/

/-- Map-then-filter is filterMap with an inlined guard. -/
theorem filter_map_eq_filterMap {α β : Type} (f : α → β) (p : β → Bool) (l : List α) :
    (l.map f).filter p = l.filterMap fun a => if p (f a) then some (f a) else none := by
  induction l with
  | nil => rfl
  | cons x xs ih =>
      simp only [List.map_cons, List.filter_cons, List.filterMap_cons]
      by_cases h : p (f x)
      · simp [h, ih]
      · simp [h, ih]

/-- When at least one completed trade answers the rule with yes, the stats
entry of the source agrees field-by-field with the spec's wording. -/
theorem mkRuleStat_spec (cs : List Trade) (r : String × String)
    (h : 0 < (cs.filter fun t => ruleField r.1 t = some "yes").length) :
    mkRuleStat cs r =
      { rule := r.2
        trades := (cs.filter fun t => ruleField r.1 t = some "yes").length
        wins := (((cs.filter fun t => ruleField r.1 t = some "yes").filter
          fun t => t.status = some TradeStatus.win).length)
        winRate := ((((cs.filter fun t => ruleField r.1 t = some "yes").filter
            fun t => t.status = some TradeStatus.win).length : ℚ)) /
          (((cs.filter fun t => ruleField r.1 t = some "yes").length : ℚ)) * 100
        totalPL := (((cs.filter fun t => ruleField r.1 t = some "yes").map effPL).sum) } := by
  simp only [mkRuleStat]
  rw [if_pos h, foldl_add_eq_sum, zero_add]

/-- C2 counterexample: a completed winning trade whose `rule_emotions`
is `'yes'` (and all six enumerated rules null) yields an empty breakdown —
`getRulePerformance` never reports an entry for `rule_emotions` (nor
`rule_lot_size`); the code enumerates only six rule fields, not eight. -/
theorem rule_breakdown_misses_emotions :
    (({ status := some TradeStatus.win, reward_amount := some 10, rule_emotions := some "yes" } : Trade).rule_emotions = some "yes") ∧
    getRulePerformance [{ status := some TradeStatus.win, reward_amount := some 10, rule_emotions := some "yes" }] = [] := by
  exact ⟨rfl, by decide⟩

/-- C2 (amended): the confluence-rule breakdown has one entry for each
of the SIX enumerated rule fields (`rule_in_plan`, `rule_bos`,
`rule_liquidity`, `rule_trend`, `rule_news`, `rule_rr`) with at least one
completed trade answered yes; each entry reports the count, win count, win
rate and total effective P&L of exactly those trades; zero-match rules are
omitted.  (`rule_emotions` and `rule_lot_size` are not part of the
breakdown.) -/
theorem rulePerformance_eq_spec (ts : List Trade) :
    getRulePerformance ts = rulePerformanceSpec ts := by
  rw [getRulePerformance, rulePerformanceSpec, filter_map_eq_filterMap]
  congr 1
  funext r
  show (if ((mkRuleStat (completedOf ts) r).trades > 0 : Bool) then some (mkRuleStat (completedOf ts) r) else none) = _
  by_cases h : 0 < ((completedOf ts).filter fun t => ruleField r.1 t = some "yes").length
  · have hb : ((mkRuleStat (completedOf ts) r).trades > 0 : Bool) = true := by
      simpa [mkRuleStat] using h
    rw [hb, if_pos rfl]
    simp only [h, if_pos]
    rw [mkRuleStat_spec (completedOf ts) r h]
  · have hb : ((mkRuleStat (completedOf ts) r).trades > 0 : Bool) = false := by
      simpa [mkRuleStat] using h
    rw [hb]
    simp only [h, if_neg]
    rfl

/-- Witness for C6 at a list whose only trade has a null status and
otherwise non-null junk fields. -/
theorem aggregators_degrade_to_zero_witness :
    (completedOf [{ profit_loss := some 5, pips := some 3 }]).length = 0 ∧
    calculateStats [{ profit_loss := some 5, pips := some 3 }] = zeroStats :=
  ⟨by decide, (aggregators_degrade_to_zero _).2.2 (by decide)⟩

example :
    (calculateStats
      [{ status := some .win, reward_amount := some 100 },
       { status := some .loss, reward_amount := some 50 },
       { status := some .breakeven, profit_loss := some 0 }]).totalProfitLoss = 50 := by
  simp [calculateStats, mkStats, totalPLIn, completedOf, effPL, jsOrQ]
  norm_num

example :
    (calculateStats
      [{ status := some .win, reward_amount := some 100 },
       { status := some .loss, reward_amount := some 50 }]).profitFactor = .fin 2 := by
  simp [calculateStats, mkStats, profitFactorIn, totalWinAmountIn, totalLossAmountIn,
    winsIn, lossesIn, completedOf, fallbackPL, jsOrQ]
  norm_num

end TradeJourn
